import Mathlib

/-!
Shallow embedding of the chess-client core (`src/main.ts`):
the 8×10 board, the per-kind move generation rules, and the networked
game controller (`NetworkedChessGame`) with its reconciliation and
intent operations.
-/

namespace ChessClient

/-- The two playing sides (`'white' | 'black'` in the source). -/
inductive Color
  | white
  | black
deriving DecidableEq, Repr

/-- The connected player's role (`'white' | 'black' | 'spectator'`). -/
inductive Role
  | white
  | black
  | spectator
deriving DecidableEq, Repr

/-- A side viewed as a role; models the TS string comparison between a
piece color string and the `playerColor` string. -/
def Color.toRole : Color → Role
  | .white => .white
  | .black => .black

/-- The seven piece kinds of this variant. -/
inductive PieceKind
  | pawn
  | rook
  | knight
  | bishop
  | queen
  | king
  | mann
deriving DecidableEq, Repr

/-- A piece: kind tag plus the fields of the abstract `Piece` class. -/
structure Piece where
  kind : PieceKind
  color : Color
  row : Int
  col : Int
  hasMoved : Bool
deriving DecidableEq, Repr

/-- A board square, as the `{ row, col }` objects produced by move
generation. -/
structure Pos where
  row : Int
  col : Int
deriving DecidableEq, Repr

/-- `ChessBoard.isValidPosition`: row in [0,8) and col in [0,10). -/
def isValidPosition (row col : Int) : Bool :=
  decide (0 ≤ row ∧ row < 8 ∧ 0 ≤ col ∧ col < 10)

/-- The board: at most one piece per cell, modelled as a bounds-checked
cell map (the TS `(Piece | null)[][]` array). -/
structure Board where
  cells : Int → Int → Option Piece

/-- The cleared board (`Array(8).fill(null).map(() => Array(10).fill(null))`). -/
def Board.emptyBoard : Board := ⟨fun _ _ => none⟩

/-- `ChessBoard.getPiece`: bounds-checked read, `null` out of bounds. -/
def Board.getPiece (b : Board) (row col : Int) : Option Piece :=
  if isValidPosition row col then b.cells row col else none

/-- `ChessBoard.setPiece`: bounds-checked write that also stamps the
placed piece's own `row`/`col` fields; no-op out of bounds. -/
def Board.setPiece (b : Board) (row col : Int) (p : Option Piece) : Board :=
  if isValidPosition row col then
    ⟨fun r c =>
      if r = row ∧ c = col then
        match p with
        | some q => some { q with row := row, col := col }
        | none => none
      else b.cells r c⟩
  else b

/-- Pawn forward direction: `color === 'white' ? -1 : 1`. -/
def pawnDirection : Color → Int
  | .white => -1
  | .black => 1

/-- Pawn starting row: `color === 'white' ? 6 : 1`. -/
def pawnStartRow : Color → Int
  | .white => 6
  | .black => 1

/-- The forward-push part of `Pawn.getValidMoves`: one square forward if
empty, and from the starting row additionally two squares if that one is
also empty. -/
def pawnForwardList (color : Color) (row col : Int) (b : Board) : List Pos :=
  if isValidPosition (row + pawnDirection color) col = true ∧
      b.getPiece (row + pawnDirection color) col = none then
    Pos.mk (row + pawnDirection color) col ::
      (if row = pawnStartRow color then
        (if isValidPosition (row + 2 * pawnDirection color) col = true ∧
            b.getPiece (row + 2 * pawnDirection color) col = none then
          [Pos.mk (row + 2 * pawnDirection color) col]
        else [])
      else [])
  else []

/-- The diagonal-capture test of `Pawn.getValidMoves` for one capture
square: on-board and occupied by an opponent. -/
def pawnCaptureAt (color : Color) (b : Board) (row col : Int) : List Pos :=
  if isValidPosition row col = true then
    match b.getPiece row col with
    | some q => if q.color ≠ color then [Pos.mk row col] else []
    | none => []
  else []

/-- `Pawn.getValidMoves`: forward pushes, then capture-left, then
capture-right. -/
def pawnMoves (color : Color) (row col : Int) (b : Board) : List Pos :=
  pawnForwardList color row col b
    ++ pawnCaptureAt color b (row + pawnDirection color) (col - 1)
    ++ pawnCaptureAt color b (row + pawnDirection color) (col + 1)

/-- One sliding ray (the `for (let i = 1; i < 10; i++)` loop of
`Rook.getValidMoves` / `Bishop.getValidMoves`): extend until off-board,
stop at the first piece, including it only when it is an opponent's.
`fuel` counts the remaining loop iterations (9 at the start), `i` the
current step multiplier. -/
def rayFrom (b : Board) (selfColor : Color) (row col dRow dCol : Int) :
    Nat → Int → List Pos
  | 0, _ => []
  | fuel + 1, i =>
    let nr := row + dRow * i
    let nc := col + dCol * i
    if isValidPosition nr nc then
      match b.getPiece nr nc with
      | none => Pos.mk nr nc :: rayFrom b selfColor row col dRow dCol fuel (i + 1)
      | some q => if q.color ≠ selfColor then [Pos.mk nr nc] else []
    else []

/-- `Rook.getValidMoves`: the four orthogonal rays, in source order. -/
def rookMoves (color : Color) (row col : Int) (b : Board) : List Pos :=
  rayFrom b color row col 0 1 9 1 ++ rayFrom b color row col 0 (-1) 9 1 ++
    rayFrom b color row col 1 0 9 1 ++ rayFrom b color row col (-1) 0 9 1

/-- `Bishop.getValidMoves`: the four diagonal rays, in source order. -/
def bishopMoves (color : Color) (row col : Int) (b : Board) : List Pos :=
  rayFrom b color row col 1 1 9 1 ++ rayFrom b color row col 1 (-1) 9 1 ++
    rayFrom b color row col (-1) 1 9 1 ++ rayFrom b color row col (-1) (-1) 9 1

/-- `Queen.getValidMoves`: rook rays followed by bishop rays from the
same position and color. -/
def queenMoves (color : Color) (row col : Int) (b : Board) : List Pos :=
  rookMoves color row col b ++ bishopMoves color row col b

/-- Single-step candidate generation shared by Knight, King and Mann:
each offset target is kept when on-board and not occupied by an own
piece. -/
def stepMoves (color : Color) (row col : Int) (b : Board)
    (offsets : List (Int × Int)) : List Pos :=
  offsets.flatMap fun d =>
    if isValidPosition (row + d.1) (col + d.2) then
      match b.getPiece (row + d.1) (col + d.2) with
      | none => [Pos.mk (row + d.1) (col + d.2)]
      | some q => if q.color ≠ color then [Pos.mk (row + d.1) (col + d.2)] else []
    else []

/-- The eight knight offsets, in source order. -/
def knightOffsets : List (Int × Int) :=
  [(2, 1), (2, -1), (-2, 1), (-2, -1), (1, 2), (1, -2), (-1, 2), (-1, -2)]

/-- The eight unit directions used by King and Mann, in source order. -/
def kingDirections : List (Int × Int) :=
  [(-1, -1), (-1, 0), (-1, 1), (0, -1), (0, 1), (1, -1), (1, 0), (1, 1)]

/-- `Knight.getValidMoves`. -/
def knightMoves (color : Color) (row col : Int) (b : Board) : List Pos :=
  stepMoves color row col b knightOffsets

/-- `King.getValidMoves`. -/
def kingMoves (color : Color) (row col : Int) (b : Board) : List Pos :=
  stepMoves color row col b kingDirections

/-- `Mann.getValidMoves` (textually identical to the King's rule). -/
def mannMoves (color : Color) (row col : Int) (b : Board) : List Pos :=
  stepMoves color row col b kingDirections

/-- The virtual `getValidMoves` dispatch over the piece's kind. -/
def Piece.getValidMoves (p : Piece) (b : Board) : List Pos :=
  match p.kind with
  | .pawn => pawnMoves p.color p.row p.col b
  | .rook => rookMoves p.color p.row p.col b
  | .knight => knightMoves p.color p.row p.col b
  | .bishop => bishopMoves p.color p.row p.col b
  | .queen => queenMoves p.color p.row p.col b
  | .king => kingMoves p.color p.row p.col b
  | .mann => mannMoves p.color p.row p.col b

/-- One entry of the snapshot's flat piece list (`serverPiece`). -/
structure ServerPiece where
  type : String
  color : Color
  row : Int
  col : Int
  hasMoved : Bool
deriving DecidableEq, Repr

/-- `ChessBoard.createPieceFromType`: dispatch on the kind string,
`null` for unknown kinds. -/
def createPieceFromType (type : String) (color : Color) (row col : Int) :
    Option Piece :=
  if type = "pawn" then some ⟨.pawn, color, row, col, false⟩
  else if type = "rook" then some ⟨.rook, color, row, col, false⟩
  else if type = "knight" then some ⟨.knight, color, row, col, false⟩
  else if type = "bishop" then some ⟨.bishop, color, row, col, false⟩
  else if type = "queen" then some ⟨.queen, color, row, col, false⟩
  else if type = "king" then some ⟨.king, color, row, col, false⟩
  else if type = "mann" then some ⟨.mann, color, row, col, false⟩
  else none

/-- Placing one snapshot entry: reconstruct the piece (skipping unknown
kinds), copy its `hasMoved` flag, and place it at the entry's square. -/
def placeServerPiece (acc : Board) (sp : ServerPiece) : Board :=
  match createPieceFromType sp.type sp.color sp.row sp.col with
  | some piece => acc.setPiece sp.row sp.col (some { piece with hasMoved := sp.hasMoved })
  | none => acc

/-- `ChessBoard.updateFromServerState`: clear the board, then recreate
and place one piece per snapshot entry. -/
def Board.updateFromServerState (_b : Board) (serverPieces : List ServerPiece) :
    Board :=
  serverPieces.foldl placeServerPiece Board.emptyBoard

/-- `ChessBoard.getAllPieces`: all pieces in row-major cell order. -/
def Board.getAllPieces (b : Board) : List Piece :=
  (List.range 8).flatMap fun r =>
    (List.range 10).filterMap fun c => b.cells (r : Int) (c : Int)

/-- The authoritative room snapshot fields read by `updateFromServer`. -/
structure RoomSnapshot where
  pieces : List ServerPiece
  currentTurn : Color
  gameStatus : String
  selectedPiecePlayer : String
  selectedRow : Int
  selectedCol : Int

/-- The session-level context: the module globals `playerColor`,
`playerSessionId`, and whether `room` is set. -/
structure Ctx where
  playerColor : Role
  playerSessionId : String
  hasRoom : Bool

/-- The mutable fields of `NetworkedChessGame`. -/
structure GameState where
  board : Board
  currentPlayer : Color
  selectedPiece : Option Piece
  gameStatus : String

/-- Outbound messages sent through `room.send`. -/
inductive OutMsg
  | selectMsg (row col : Int)
  | deselectMsg
  | moveMsg (fromRow fromCol toRow toCol : Int)
deriving DecidableEq, Repr

/-- `NetworkedChessGame.updateFromServer`: replace the board from the
snapshot, adopt turn and status, and recompute the local selection from
the snapshot's selecting session and coordinates. -/
def updateFromServer (ctx : Ctx) (s : GameState) (roomState : RoomSnapshot) :
    GameState :=
  let board := s.board.updateFromServerState roomState.pieces
  { board := board
    currentPlayer := roomState.currentTurn
    gameStatus := roomState.gameStatus
    selectedPiece :=
      if roomState.selectedPiecePlayer = ctx.playerSessionId then
        board.getPiece roomState.selectedRow roomState.selectedCol
      else none }

/-- `NetworkedChessGame.selectPiece`: returns the success flag, the
outbound messages sent, and the (unchanged) controller state. -/
def selectPiece (ctx : Ctx) (s : GameState) (row col : Int) :
    Bool × List OutMsg × GameState :=
  match s.board.getPiece row col with
  | none => (false, [], s)
  | some piece =>
    if piece.color.toRole ≠ ctx.playerColor ∨ s.currentPlayer.toRole ≠ ctx.playerColor then
      (false, [], s)
    else
      (true, if ctx.hasRoom then [OutMsg.selectMsg row col] else [], s)

/-- `NetworkedChessGame.deselectPiece`. -/
def deselectPiece (ctx : Ctx) (s : GameState) : List OutMsg × GameState :=
  (if ctx.hasRoom then [OutMsg.deselectMsg] else [], s)

/-- `NetworkedChessGame.getValidMovesForSelected`. -/
def getValidMovesForSelected (s : GameState) : List Pos :=
  match s.selectedPiece with
  | none => []
  | some piece => piece.getValidMoves s.board

/-- `NetworkedChessGame.makeMove`: returns the success flag, the
outbound messages sent, and the (unchanged) controller state. -/
def makeMove (ctx : Ctx) (s : GameState) (toRow toCol : Int) :
    Bool × List OutMsg × GameState :=
  match s.selectedPiece with
  | none => (false, [], s)
  | some selected =>
    if ctx.playerColor = Role.spectator then (false, [], s)
    else
      let validMoves := getValidMovesForSelected s
      if validMoves.any (fun mv => mv.row == toRow && mv.col == toCol) then
        (true,
          if ctx.hasRoom then
            [OutMsg.moveMsg selected.row selected.col toRow toCol]
          else [],
          s)
      else (false, [], s)

/-- `NetworkedChessGame.canPlayerAct`. -/
def canPlayerAct (ctx : Ctx) (s : GameState) : Bool :=
  decide (ctx.playerColor ≠ Role.spectator) &&
    decide (s.currentPlayer.toRole = ctx.playerColor) &&
    decide (s.gameStatus = "playing")

/-- A white pawn on its home row at (6,4). -/
def pawnW64 : Piece := ⟨.pawn, .white, 6, 4, false⟩

/-- Spec §8 example board: only a first-side (white) pawn at (6,4). -/
def exampleBoard1 : Board := Board.emptyBoard.setPiece 6 4 (some pawnW64)

/-- The example board with an opposing piece added at (5,3). -/
def exampleBoard2 : Board :=
  exampleBoard1.setPiece 5 3 (some ⟨.pawn, .black, 5, 3, false⟩)

/-- The example board with an own piece also added at (5,4). -/
def exampleBoard3 : Board :=
  exampleBoard2.setPiece 5 4 (some ⟨.pawn, .white, 5, 4, false⟩)

/-- A session playing white, with a live room. -/
def ctxW : Ctx := ⟨Role.white, "session-self", true⟩

/-- White to move on the example board, but status still "waiting". -/
def waitingState : GameState := ⟨exampleBoard1, .white, none, "waiting"⟩

/-- White to move on the example board with the pawn selected, status
"playing". -/
def playingSelState : GameState := ⟨exampleBoard1, .white, some pawnW64, "playing"⟩

/-- A white rook at (3,3) with an opposing piece at (3,7) (spec §8
rook-ray example). -/
def rookBoard : Board :=
  (Board.emptyBoard.setPiece 3 3 (some ⟨.rook, .white, 3, 3, false⟩)).setPiece 3 7
    (some ⟨.pawn, .black, 3, 7, false⟩)

/-- A snapshot entry for the example pawn. -/
def pawnEntry : ServerPiece := ⟨"pawn", .white, 6, 4, false⟩

/-- A snapshot entry with an unknown kind string. -/
def dragonEntry : ServerPiece := ⟨"dragon", .white, 0, 0, false⟩

/-- A snapshot entry with a known kind but an out-of-bounds row. -/
def oobEntry : ServerPiece := ⟨"rook", .white, 8, 0, false⟩

/-- A snapshot attributing a selection on an empty square to this
session. -/
def staleSnap : RoomSnapshot :=
  ⟨[pawnEntry], .white, "playing", "session-self", 0, 0⟩

/-- A snapshot attributing the selection to a different session. -/
def otherSnap : RoomSnapshot :=
  ⟨[pawnEntry], .white, "playing", "session-other", 6, 4⟩

/-- Every piece stored in a cell has in-bounds `row`/`col` fields. -/
def boardInBounds (b : Board) : Prop :=
  ∀ r c q, b.cells r c = some q →
    0 ≤ q.row ∧ q.row < 8 ∧ 0 ≤ q.col ∧ q.col < 10

/-! ## Move-generation lemmas -/

theorem mem_pawnCaptureAt {color : Color} {b : Board} {row col : Int} {m : Pos} :
    m ∈ pawnCaptureAt color b row col ↔
      m = Pos.mk row col ∧ isValidPosition row col = true ∧
        ∃ q, b.getPiece row col = some q ∧ q.color ≠ color := by
  unfold pawnCaptureAt
  split_ifs with hv
  · cases hg : b.getPiece row col with
    | none => simp [hg]
    | some q =>
      by_cases hc : q.color = color
      · simp [hg, hc]
      · simp [hg, hc, hv]
  · simp [hv]

theorem mem_pawnForwardList {color : Color} {row col : Int} {b : Board} {m : Pos} :
    m ∈ pawnForwardList color row col b ↔
      (m = Pos.mk (row + pawnDirection color) col ∧
        isValidPosition (row + pawnDirection color) col = true ∧
        b.getPiece (row + pawnDirection color) col = none) ∨
      (m = Pos.mk (row + 2 * pawnDirection color) col ∧ row = pawnStartRow color ∧
        isValidPosition (row + pawnDirection color) col = true ∧
        b.getPiece (row + pawnDirection color) col = none ∧
        isValidPosition (row + 2 * pawnDirection color) col = true ∧
        b.getPiece (row + 2 * pawnDirection color) col = none) := by
  unfold pawnForwardList
  split_ifs with h1 h2 h3
  · simp only [List.mem_cons, List.mem_singleton, List.not_mem_nil, or_false]
    tauto
  · simp only [List.mem_cons, List.not_mem_nil, or_false]
    tauto
  · simp only [List.mem_cons, List.not_mem_nil, or_false]
    tauto
  · simp only [List.not_mem_nil, false_iff]
    tauto

theorem mem_pawnMoves {color : Color} {row col : Int} {b : Board} {m : Pos} :
    m ∈ pawnMoves color row col b ↔
      (m = Pos.mk (row + pawnDirection color) col ∧
        isValidPosition (row + pawnDirection color) col = true ∧
        b.getPiece (row + pawnDirection color) col = none) ∨
      (m = Pos.mk (row + 2 * pawnDirection color) col ∧ row = pawnStartRow color ∧
        isValidPosition (row + pawnDirection color) col = true ∧
        b.getPiece (row + pawnDirection color) col = none ∧
        isValidPosition (row + 2 * pawnDirection color) col = true ∧
        b.getPiece (row + 2 * pawnDirection color) col = none) ∨
      (m = Pos.mk (row + pawnDirection color) (col - 1) ∧
        isValidPosition (row + pawnDirection color) (col - 1) = true ∧
        ∃ q, b.getPiece (row + pawnDirection color) (col - 1) = some q ∧
          q.color ≠ color) ∨
      (m = Pos.mk (row + pawnDirection color) (col + 1) ∧
        isValidPosition (row + pawnDirection color) (col + 1) = true ∧
        ∃ q, b.getPiece (row + pawnDirection color) (col + 1) = some q ∧
          q.color ≠ color) := by
  simp only [pawnMoves, List.mem_append, mem_pawnForwardList, mem_pawnCaptureAt,
    or_assoc]

theorem pawnMoves_valid {color : Color} {row col : Int} {b : Board} {m : Pos}
    (hm : m ∈ pawnMoves color row col b) : isValidPosition m.row m.col = true := by
  rcases mem_pawnMoves.mp hm with ⟨he, hv, _⟩ | ⟨he, _, _, _, hv, _⟩ |
    ⟨he, hv, _⟩ | ⟨he, hv, _⟩ <;> subst he <;> exact hv

theorem rayFrom_valid {b : Board} {selfColor : Color} {row col dRow dCol : Int} :
    ∀ (fuel : Nat) (i : Int) (m : Pos),
      m ∈ rayFrom b selfColor row col dRow dCol fuel i →
        isValidPosition m.row m.col = true := by
  intro fuel
  induction fuel with
  | zero => intro i m hm; simp [rayFrom] at hm
  | succ n ih =>
    intro i m hm
    unfold rayFrom at hm
    dsimp only at hm
    split_ifs at hm with hv
    · split at hm
      · rcases List.mem_cons.mp hm with he | ht
        · subst he; exact hv
        · exact ih (i + 1) m ht
      · split_ifs at hm with hc
        · rcases List.mem_singleton.mp hm with he
          subst he; exact hv
        · simp at hm
    · simp at hm

theorem rookMoves_valid {color : Color} {row col : Int} {b : Board} {m : Pos}
    (hm : m ∈ rookMoves color row col b) : isValidPosition m.row m.col = true := by
  unfold rookMoves at hm
  rcases List.mem_append.mp hm with hm' | hm'
  · rcases List.mem_append.mp hm' with hm'' | hm''
    · rcases List.mem_append.mp hm'' with h | h <;> exact rayFrom_valid _ _ _ h
    · exact rayFrom_valid _ _ _ hm''
  · exact rayFrom_valid _ _ _ hm'

theorem bishopMoves_valid {color : Color} {row col : Int} {b : Board} {m : Pos}
    (hm : m ∈ bishopMoves color row col b) : isValidPosition m.row m.col = true := by
  unfold bishopMoves at hm
  rcases List.mem_append.mp hm with hm' | hm'
  · rcases List.mem_append.mp hm' with hm'' | hm''
    · rcases List.mem_append.mp hm'' with h | h <;> exact rayFrom_valid _ _ _ h
    · exact rayFrom_valid _ _ _ hm''
  · exact rayFrom_valid _ _ _ hm'

theorem stepMoves_valid {color : Color} {row col : Int} {b : Board}
    {offsets : List (Int × Int)} {m : Pos}
    (hm : m ∈ stepMoves color row col b offsets) :
    isValidPosition m.row m.col = true := by
  unfold stepMoves at hm
  rcases List.mem_flatMap.mp hm with ⟨d, _, hd⟩
  split_ifs at hd with hv
  · split at hd
    · rcases List.mem_singleton.mp hd with he
      subst he; exact hv
    · split_ifs at hd with hc
      · rcases List.mem_singleton.mp hd with he
        subst he; exact hv
      · simp at hd
  · simp at hd

theorem queenMoves_valid {color : Color} {row col : Int} {b : Board} {m : Pos}
    (hm : m ∈ queenMoves color row col b) : isValidPosition m.row m.col = true := by
  unfold queenMoves at hm
  rcases List.mem_append.mp hm with h | h
  · exact rookMoves_valid h
  · exact bishopMoves_valid h

/-! ## Claim theorems -/

/-- C3: for every piece of every kind, color and position, and every
board, every destination returned by move generation satisfies the
board's bounds predicate: row in [0,8) and column in [0,10). -/
theorem generated_moves_on_board (p : Piece) (b : Board) (m : Pos)
    (hm : m ∈ p.getValidMoves b) :
    isValidPosition m.row m.col = true ∧
      (0 ≤ m.row ∧ m.row < 8 ∧ 0 ≤ m.col ∧ m.col < 10) := by
  have h : isValidPosition m.row m.col = true := by
    unfold Piece.getValidMoves at hm
    rcases hk : p.kind <;> rw [hk] at hm
    · exact pawnMoves_valid hm
    · exact rookMoves_valid hm
    · exact stepMoves_valid hm
    · exact bishopMoves_valid hm
    · exact queenMoves_valid hm
    · exact stepMoves_valid hm
    · exact stepMoves_valid hm
  refine ⟨h, ?_⟩
  simpa [isValidPosition] using h

theorem generated_moves_on_board_witness :
    Pos.mk 3 7 ∈ (Piece.mk .rook .white 3 3 false).getValidMoves rookBoard ∧
      (isValidPosition (Pos.mk 3 7).row (Pos.mk 3 7).col = true ∧
        (0 ≤ (Pos.mk 3 7).row ∧ (Pos.mk 3 7).row < 8 ∧
          0 ≤ (Pos.mk 3 7).col ∧ (Pos.mk 3 7).col < 10)) :=
  ⟨by decide, generated_moves_on_board (Piece.mk .rook .white 3 3 false) rookBoard
    (Pos.mk 3 7) (by decide)⟩

/-- C4: pawn move generation — the one-square push is offered only when
that square is empty; the two-square push only from the home row
(row 6 for white, row 1 for black) with both squares empty; the two
forward diagonals only when occupied by an opponent; and the spec's
three concrete example boards produce exactly the stated destination
sets. -/
theorem pawn_move_generation (color : Color) (row col : Int) (b : Board) (m : Pos) :
    (m ∈ pawnMoves color row col b ↔
      (m = Pos.mk (row + pawnDirection color) col ∧
        isValidPosition (row + pawnDirection color) col = true ∧
        b.getPiece (row + pawnDirection color) col = none) ∨
      (m = Pos.mk (row + 2 * pawnDirection color) col ∧ row = pawnStartRow color ∧
        isValidPosition (row + pawnDirection color) col = true ∧
        b.getPiece (row + pawnDirection color) col = none ∧
        isValidPosition (row + 2 * pawnDirection color) col = true ∧
        b.getPiece (row + 2 * pawnDirection color) col = none) ∨
      (m = Pos.mk (row + pawnDirection color) (col - 1) ∧
        isValidPosition (row + pawnDirection color) (col - 1) = true ∧
        ∃ q, b.getPiece (row + pawnDirection color) (col - 1) = some q ∧
          q.color ≠ color) ∨
      (m = Pos.mk (row + pawnDirection color) (col + 1) ∧
        isValidPosition (row + pawnDirection color) (col + 1) = true ∧
        ∃ q, b.getPiece (row + pawnDirection color) (col + 1) = some q ∧
          q.color ≠ color)) ∧
    pawnMoves Color.white 6 4 exampleBoard1 = [Pos.mk 5 4, Pos.mk 4 4] ∧
    pawnMoves Color.white 6 4 exampleBoard2 = [Pos.mk 5 4, Pos.mk 4 4, Pos.mk 5 3] ∧
    pawnMoves Color.white 6 4 exampleBoard3 = [Pos.mk 5 3] :=
  ⟨mem_pawnMoves, by decide, by decide, by decide⟩

/-- C5: reconciliation is idempotent — applying the same snapshot twice
yields the same board contents, turn, status and selection as applying
it once. -/
theorem reconcile_idempotent (ctx : Ctx) (s : GameState) (snap : RoomSnapshot) :
    (∀ row col,
      (updateFromServer ctx (updateFromServer ctx s snap) snap).board.getPiece row col =
        (updateFromServer ctx s snap).board.getPiece row col) ∧
    (updateFromServer ctx (updateFromServer ctx s snap) snap).currentPlayer =
      (updateFromServer ctx s snap).currentPlayer ∧
    (updateFromServer ctx (updateFromServer ctx s snap) snap).gameStatus =
      (updateFromServer ctx s snap).gameStatus ∧
    (updateFromServer ctx (updateFromServer ctx s snap) snap).selectedPiece =
      (updateFromServer ctx s snap).selectedPiece :=
  ⟨fun _ _ => rfl, rfl, rfl, rfl⟩

/-- C6: the intent operations `selectPiece`, `makeMove` and
`deselectPiece` never change the controller state (board, turn, status,
selection); only `updateFromServer` does. -/
theorem intent_ops_preserve_state (ctx : Ctx) (s : GameState)
    (row col toRow toCol : Int) :
    (selectPiece ctx s row col).2.2 = s ∧ (makeMove ctx s toRow toCol).2.2 = s ∧
      (deselectPiece ctx s).2 = s := by
  refine ⟨?_, ?_, rfl⟩
  · unfold selectPiece
    split
    · rfl
    · split <;> rfl
  · unfold makeMove
    split
    · rfl
    · split
      · rfl
      · dsimp only
        split <;> rfl

/-- C7: the queen's destination set is exactly the union of the rook's
and the bishop's destination sets from the same position and color. -/
theorem queen_moves_union (b : Board) (color : Color) (row col : Int) (m : Pos) :
    m ∈ queenMoves color row col b ↔
      m ∈ rookMoves color row col b ∨ m ∈ bishopMoves color row col b := by
  unfold queenMoves
  exact List.mem_append

theorem any_coord_eq (l : List Pos) (r c : Int) :
    (l.any fun mv => mv.row == r && mv.col == c) = true ↔ Pos.mk r c ∈ l := by
  rw [List.any_eq_true]
  constructor
  · rintro ⟨mv, hmv, hb⟩
    simp only [Bool.and_eq_true, beq_iff_eq] at hb
    have he : mv = Pos.mk r c := by
      cases mv; simp_all
    rwa [he] at hmv
  · intro h
    exact ⟨_, h, by simp⟩

/-- C1 counterexample: with own turn and an own piece on the square but
game status still "waiting" (so `canPlayerAct` is false), `selectPiece`
succeeds and emits the outbound selection-intent. -/
theorem selectPiece_succeeds_despite_inactive_status :
    canPlayerAct ctxW waitingState = false ∧
      (selectPiece ctxW waitingState 6 4).1 = true ∧
      (selectPiece ctxW waitingState 6 4).2.1 = [OutMsg.selectMsg 6 4] :=
  ⟨by decide, by decide, by decide⟩

/-- C1 (amended): `selectPiece` succeeds iff a piece occupies the square,
its color equals the own role, and the current turn equals the own role
(which entails the role is a playing side); the game-status component of
`canPlayerAct` is not checked. On success (with a room) it emits exactly
the selection-intent with the coordinates; on failure it emits nothing. -/
theorem selectPiece_characterization (ctx : Ctx) (s : GameState) (row col : Int)
    (hr : ctx.hasRoom = true) :
    ((selectPiece ctx s row col).1 = true ↔
      ∃ piece, s.board.getPiece row col = some piece ∧
        piece.color.toRole = ctx.playerColor ∧
        s.currentPlayer.toRole = ctx.playerColor) ∧
    ((selectPiece ctx s row col).1 = true →
      (selectPiece ctx s row col).2.1 = [OutMsg.selectMsg row col]) ∧
    ((selectPiece ctx s row col).1 = false → (selectPiece ctx s row col).2.1 = []) := by
  unfold selectPiece
  cases hg : s.board.getPiece row col with
  | none => simp
  | some piece =>
    dsimp only
    split_ifs with hcond
    · refine ⟨?_, by intro h; simp at h, fun _ => rfl⟩
      simp only [false_iff, not_exists]
      rintro q ⟨hq, h1, h2⟩
      injection hq with hq'
      subst hq'
      rcases hcond with hc | hc
      · exact hc h1
      · exact hc h2
    · push_neg at hcond
      refine ⟨⟨fun _ => ⟨piece, rfl, hcond.1, hcond.2⟩, fun _ => rfl⟩,
        fun _ => by simp [hr], ?_⟩
      intro h
      simp at h

theorem selectPiece_characterization_witness :
    ctxW.hasRoom = true ∧
      (((selectPiece ctxW waitingState 6 4).1 = true ↔
        ∃ piece, waitingState.board.getPiece 6 4 = some piece ∧
          piece.color.toRole = ctxW.playerColor ∧
          waitingState.currentPlayer.toRole = ctxW.playerColor) ∧
      ((selectPiece ctxW waitingState 6 4).1 = true →
        (selectPiece ctxW waitingState 6 4).2.1 = [OutMsg.selectMsg 6 4]) ∧
      ((selectPiece ctxW waitingState 6 4).1 = false →
        (selectPiece ctxW waitingState 6 4).2.1 = [])) :=
  ⟨rfl, selectPiece_characterization ctxW waitingState 6 4 rfl⟩

/-- C2: `makeMove` succeeds iff there is a local selection, the own role
is not spectator, and the target square is a member of the legal
destinations of the selected piece; on success (with a room) it emits
exactly one outbound move-intent carrying the from/to coordinates, and
on failure it emits nothing. -/
theorem makeMove_characterization (ctx : Ctx) (s : GameState) (toRow toCol : Int)
    (hr : ctx.hasRoom = true) :
    ((makeMove ctx s toRow toCol).1 = true ↔
      (∃ selected, s.selectedPiece = some selected) ∧
        ctx.playerColor ≠ Role.spectator ∧
        Pos.mk toRow toCol ∈ getValidMovesForSelected s) ∧
    ((makeMove ctx s toRow toCol).1 = true →
      ∃ selected, s.selectedPiece = some selected ∧
        (makeMove ctx s toRow toCol).2.1 =
          [OutMsg.moveMsg selected.row selected.col toRow toCol]) ∧
    ((makeMove ctx s toRow toCol).1 = false →
      (makeMove ctx s toRow toCol).2.1 = []) := by
  unfold makeMove
  cases hs : s.selectedPiece with
  | none => simp
  | some selected =>
    dsimp only
    split_ifs with hspec hmem
    · simp [hspec]
    · rw [any_coord_eq] at hmem
      refine ⟨⟨fun _ => ⟨⟨selected, rfl⟩, hspec, hmem⟩, fun _ => rfl⟩,
        fun _ => ⟨selected, rfl, by simp [hr]⟩, ?_⟩
      intro h
      simp at h
    · rw [any_coord_eq] at hmem
      refine ⟨?_, by intro h; simp at h, fun _ => rfl⟩
      simp only [false_iff]
      rintro ⟨_, _, hmem'⟩
      exact hmem hmem'

theorem makeMove_characterization_witness :
    ctxW.hasRoom = true ∧
      (((makeMove ctxW playingSelState 5 4).1 = true ↔
        (∃ selected, playingSelState.selectedPiece = some selected) ∧
          ctxW.playerColor ≠ Role.spectator ∧
          Pos.mk 5 4 ∈ getValidMovesForSelected playingSelState) ∧
      ((makeMove ctxW playingSelState 5 4).1 = true →
        ∃ selected, playingSelState.selectedPiece = some selected ∧
          (makeMove ctxW playingSelState 5 4).2.1 =
            [OutMsg.moveMsg selected.row selected.col 5 4]) ∧
      ((makeMove ctxW playingSelState 5 4).1 = false →
        (makeMove ctxW playingSelState 5 4).2.1 = [])) :=
  ⟨rfl, makeMove_characterization ctxW playingSelState 5 4 rfl⟩

/-- C9: when the reconciled snapshot either attributes the selection to
a different session, or attributes it to this session but its
coordinates point at a square that is empty (or out of bounds) on the
replaced board, the resulting local selection is absent — no error is
raised. -/
theorem reconcile_selection_degrades (ctx : Ctx) (s : GameState) (snap : RoomSnapshot)
    (h : snap.selectedPiecePlayer = ctx.playerSessionId →
      (s.board.updateFromServerState snap.pieces).getPiece snap.selectedRow
        snap.selectedCol = none) :
    (updateFromServer ctx s snap).selectedPiece = none := by
  unfold updateFromServer
  dsimp only
  split_ifs with hs
  · exact h hs
  · rfl

theorem reconcile_selection_degrades_witness :
    ((staleSnap.selectedPiecePlayer = ctxW.playerSessionId →
        (waitingState.board.updateFromServerState staleSnap.pieces).getPiece
          staleSnap.selectedRow staleSnap.selectedCol = none) ∧
      (updateFromServer ctxW waitingState staleSnap).selectedPiece = none) ∧
    (otherSnap.selectedPiecePlayer ≠ ctxW.playerSessionId ∧
      (updateFromServer ctxW waitingState otherSnap).selectedPiece = none) :=
  ⟨⟨fun _ => by decide,
      reconcile_selection_degrades ctxW waitingState staleSnap (fun _ => by decide)⟩,
    ⟨by decide,
      reconcile_selection_degrades ctxW waitingState otherSnap
        (fun hc => absurd hc (by decide))⟩⟩

theorem placeServerPiece_of_none (acc : Board) (e : ServerPiece)
    (h : createPieceFromType e.type e.color e.row e.col = none) :
    placeServerPiece acc e = acc := by
  unfold placeServerPiece
  rw [h]

theorem foldl_skip (l1 l2 : List ServerPiece) (e : ServerPiece) (b : Board)
    (he : ∀ acc : Board, placeServerPiece acc e = acc) :
    b.updateFromServerState (l1 ++ e :: l2) = b.updateFromServerState (l1 ++ l2) := by
  unfold Board.updateFromServerState
  rw [List.foldl_append, List.foldl_append, List.foldl_cons, he]

/-- C8: a snapshot entry whose kind string is unknown is silently
skipped — `createPieceFromType` returns no piece for it, and snapshot
replacement produces the same board as if the entry were absent, all
other entries being placed normally. -/
theorem unknown_kind_skipped (b : Board) (l1 l2 : List ServerPiece) (e : ServerPiece)
    (he : e.type ∉ ["pawn", "rook", "knight", "bishop", "queen", "king", "mann"]) :
    createPieceFromType e.type e.color e.row e.col = none ∧
      b.updateFromServerState (l1 ++ e :: l2) = b.updateFromServerState (l1 ++ l2) := by
  have h1 : createPieceFromType e.type e.color e.row e.col = none := by
    simp only [List.mem_cons, List.not_mem_nil, or_false, not_or] at he
    obtain ⟨h1, h2, h3, h4, h5, h6, h7⟩ := he
    unfold createPieceFromType
    simp [h1, h2, h3, h4, h5, h6, h7]
  exact ⟨h1, foldl_skip l1 l2 e b (fun acc => placeServerPiece_of_none acc e h1)⟩

theorem unknown_kind_skipped_witness :
    dragonEntry.type ∉ ["pawn", "rook", "knight", "bishop", "queen", "king", "mann"] ∧
      (createPieceFromType dragonEntry.type dragonEntry.color dragonEntry.row
          dragonEntry.col = none ∧
        Board.emptyBoard.updateFromServerState ([pawnEntry] ++ dragonEntry :: []) =
          Board.emptyBoard.updateFromServerState ([pawnEntry] ++ [])) ∧
      (Board.emptyBoard.updateFromServerState
          ([pawnEntry] ++ dragonEntry :: [])).getPiece 6 4 = some pawnW64 :=
  ⟨by decide, unknown_kind_skipped Board.emptyBoard [pawnEntry] [] dragonEntry
    (by decide), by decide⟩

theorem emptyBoard_inBounds : boardInBounds Board.emptyBoard := by
  intro r c q h
  simp [Board.emptyBoard] at h

theorem setPiece_inBounds (b : Board) (row col : Int) (p : Option Piece)
    (hb : boardInBounds b) : boardInBounds (b.setPiece row col p) := by
  intro r c q h
  unfold Board.setPiece at h
  split_ifs at h with hv
  · dsimp only at h
    split_ifs at h with hrc
    · cases p with
      | none => simp at h
      | some q' =>
        injection h with h'
        subst h'
        simp only [isValidPosition, decide_eq_true_eq] at hv
        exact ⟨hv.1, hv.2.1, hv.2.2.1, hv.2.2.2⟩
    · exact hb r c q h
  · exact hb r c q h

theorem placeServerPiece_inBounds (acc : Board) (sp : ServerPiece)
    (hb : boardInBounds acc) : boardInBounds (placeServerPiece acc sp) := by
  unfold placeServerPiece
  cases hc : createPieceFromType sp.type sp.color sp.row sp.col with
  | none => exact hb
  | some piece => exact setPiece_inBounds _ _ _ _ hb

theorem updateFromServerState_inBounds (b : Board) (l : List ServerPiece) :
    boardInBounds (b.updateFromServerState l) := by
  unfold Board.updateFromServerState
  have hfold : ∀ (t : List ServerPiece) (acc : Board), boardInBounds acc →
      boardInBounds (t.foldl placeServerPiece acc) := by
    intro t
    induction t with
    | nil => intro acc h; exact h
    | cons sp tl ih =>
      intro acc h
      rw [List.foldl_cons]
      exact ih _ (placeServerPiece_inBounds acc sp h)
  exact hfold l Board.emptyBoard emptyBoard_inBounds

theorem mem_getAllPieces {b : Board} {q : Piece} (h : q ∈ b.getAllPieces) :
    ∃ r c, b.cells r c = some q := by
  unfold Board.getAllPieces at h
  rcases List.mem_flatMap.mp h with ⟨r, _, hr⟩
  rcases List.mem_filterMap.mp hr with ⟨c, _, hc⟩
  exact ⟨r, c, hc⟩

/-- C10: board accessors are total over arbitrary integer coordinates —
`getPiece` out of bounds returns absent, `setPiece` out of bounds
leaves the board unchanged, snapshot replacement drops entries whose
coordinates are out of bounds, and every piece placed by a snapshot
replacement occupies a position with row in [0,8) and column in
[0,10). -/
theorem board_accessors_total (b b2 : Board) (row col : Int) (p : Option Piece)
    (l1 l2 l : List ServerPiece) (e : ServerPiece) (q : Piece)
    (hrc : isValidPosition row col = false)
    (he : isValidPosition e.row e.col = false)
    (hq : q ∈ (b2.updateFromServerState l).getAllPieces) :
    b.getPiece row col = none ∧ b.setPiece row col p = b ∧
      b.updateFromServerState (l1 ++ e :: l2) = b.updateFromServerState (l1 ++ l2) ∧
      (0 ≤ q.row ∧ q.row < 8 ∧ 0 ≤ q.col ∧ q.col < 10) := by
  refine ⟨by simp [Board.getPiece, hrc], by simp [Board.setPiece, hrc], ?_, ?_⟩
  · refine foldl_skip l1 l2 e b (fun acc => ?_)
    unfold placeServerPiece
    cases hc : createPieceFromType e.type e.color e.row e.col with
    | none => rfl
    | some piece => simp [Board.setPiece, he]
  · rcases mem_getAllPieces hq with ⟨r, c, hcell⟩
    exact updateFromServerState_inBounds b2 l r c q hcell

theorem board_accessors_total_witness :
    isValidPosition (-1) 0 = false ∧ isValidPosition oobEntry.row oobEntry.col = false ∧
      pawnW64 ∈ (Board.emptyBoard.updateFromServerState [pawnEntry]).getAllPieces ∧
      (Board.emptyBoard.getPiece (-1) 0 = none ∧
        Board.emptyBoard.setPiece (-1) 0 none = Board.emptyBoard ∧
        Board.emptyBoard.updateFromServerState ([pawnEntry] ++ oobEntry :: []) =
          Board.emptyBoard.updateFromServerState ([pawnEntry] ++ []) ∧
        (0 ≤ pawnW64.row ∧ pawnW64.row < 8 ∧ 0 ≤ pawnW64.col ∧ pawnW64.col < 10)) :=
  ⟨by decide, by decide, by decide,
    board_accessors_total Board.emptyBoard Board.emptyBoard (-1) 0 none
      [pawnEntry] [] [pawnEntry] oobEntry pawnW64 (by decide) (by decide) (by decide)⟩

end ChessClient
